import Mathlib

/-!
Verification development for the replicated key-value store specified by
`spec.md` of this repository, together with shallow embeddings of the
repository's experiment scripts (`setup_baseline.py`,
`replication_experiment.py`, `eventual_consistency_experiment.py`).

The repository's Python sources are thin demonstration drivers over an
external database; the specification (its sections 2-7) defines the
distributed core those drivers exercise.  The `KVStore` and `Consensus`
namespaces model that core from the specification text; the `Scripts`
namespace embeds the concrete script logic from the sources.
-/

namespace KVStore

/-- Modelled from the spec (section 3, LogEntry): an immutable log entry
with a per-node monotonically increasing index, the term it was written
in, the key/value payload, and the causal token (the commit index the
write returned). -/
structure LogEntry where
  index : Nat
  term : Nat
  key : String
  value : String
  causalToken : Nat
deriving DecidableEq, Repr

/-- Modelled from the spec (section 4.3): the write concern of a write. -/
inductive Concern where
  | one
  | majority
  | all
deriving DecidableEq, Repr

/-- Modelled from the spec (section 7): client-facing write errors. -/
inductive WErr where
  | notLeader
  | lostLeadership
  | quorumTimeout
deriving DecidableEq, Repr

/-- Modelled from the spec (section 4.3): result of a write, either an
acknowledgment carrying the committed index and causal token, or an
explicit error. -/
inductive WriteResult where
  | ack (committedIndex causalToken : Nat)
  | err (e : WErr)
deriving DecidableEq, Repr

/-- Modelled from the spec (sections 2-3): cluster state during a stable
leadership period.  `log` is the leader's append-only log (authoritative
while leadership is stable); `commitIndex` is the length of the committed
prefix; `repl j` is the length of the prefix of the leader's log that node
`j` has locally applied; `live` is node liveness. -/
structure KV (n : Nat) where
  log : List LogEntry
  commitIndex : Nat
  repl : Fin n → Nat
  leaderId : Fin n
  term : Nat
  live : Fin n → Bool

/-- Number of live members of the cluster. -/
def liveCount {n : Nat} (s : KV n) : Nat :=
  (Finset.univ.filter fun j => s.live j = true).card

/-- Modelled from the spec (section 4.3): the acknowledgment threshold of
each write concern: `one` needs only the leader itself, `majority` needs
the ceiling of (N+1)/2 of the N members, `all` needs every live member. -/
def wthreshold {n : Nat} (s : KV n) : Concern → Nat
  | .one => 1
  | .majority => (n + 1 + 1) / 2
  | .all => liveCount s

/-- Modelled from the spec (section 4.3): the leader counts incoming
acknowledgments (the initial `seen` set holds the leader itself); the
write commits at the first moment the count of distinct acknowledging
nodes reaches the threshold, returning the set seen at that moment.
`none` means the acknowledgment stream ran out (quorum wait timed out). -/
def ackRun {n : Nat} (thr : Nat) (seen : Finset (Fin n)) :
    List (Fin n) → Option (Finset (Fin n))
  | [] => if thr ≤ seen.card then some seen else none
  | a :: rest =>
      if thr ≤ seen.card then some seen else ackRun thr (insert a seen) rest

/-- The log entry a write request creates: index one past the current end
of the leader's log, stamped with the leader's term; its causal token is
its own index (the commit index the acknowledgment will carry). -/
def writeEntry {n : Nat} (s : KV n) (k v : String) : LogEntry :=
  ⟨s.log.length + 1, s.term, k, v, s.log.length + 1⟩

/-- Cluster state after a committed write: entry appended, `commitIndex`
marked, and every node whose acknowledgment was counted holds the entry. -/
def commitState {n : Nat} (s : KV n) (k v : String)
    (ackSet : Finset (Fin n)) : KV n :=
  { s with
    log := s.log ++ [writeEntry s k v]
    commitIndex := s.log.length + 1
    repl := fun j =>
      if j ∈ ackSet then s.log.length + 1 else s.repl j }

/-- Cluster state after a write whose quorum wait timed out: the entry
stays appended on the leader and on every node that acknowledged, but
`commitIndex` does not advance (indeterminate outcome). -/
def pendingState {n : Nat} (s : KV n) (k v : String)
    (acks : List (Fin n)) : KV n :=
  { s with
    log := s.log ++ [writeEntry s k v]
    repl := fun j =>
      if j = s.leaderId ∨ j ∈ acks then s.log.length + 1 else s.repl j }

/-- Modelled from the spec (section 4.3, Write Coordinator): append the
entry to the leader's log, fan out, count acknowledgments including self;
once the count satisfies the concern, mark `commitIndex` and return
success with causal token equal to the committed index.  On quorum
timeout the entry stays appended (indeterminate outcome) and the error is
returned explicitly.  `acks` is the environment-chosen stream of follower
acknowledgments. -/
def doWrite {n : Nat} (s : KV n) (k v : String) (c : Concern)
    (acks : List (Fin n)) : WriteResult × KV n :=
  match ackRun (wthreshold s c) {s.leaderId} acks with
  | some ackSet =>
      (.ack (s.log.length + 1) (s.log.length + 1), commitState s k v ackSet)
  | none => (.err .quorumTimeout, pendingState s k v acks)

/-- Last-writer-wins lookup of a key in a log fragment. -/
def lookupKey (l : List LogEntry) (k : String) : Option String :=
  l.foldl (fun acc e => if e.key = k then some e.value else acc) none

/-- Modelled from the spec (section 4.4, Local read concern): return
whatever the targeted node's local log currently holds for the key,
regardless of commit status. -/
def localRead {n : Nat} (s : KV n) (j : Fin n) (k : String) : Option String :=
  lookupKey (s.log.take (s.repl j)) k

/-- Modelled from the spec (section 4.4, Majority read concern): the
targeted node blocks until its local commit index has caught up, then
returns the value durably committed by quorum; the returned value is the
lookup in the committed prefix, independent of which node was targeted. -/
def majorityRead {n : Nat} (s : KV n) (_j : Fin n) (k : String) :
    Option String :=
  lookupKey (s.log.take s.commitIndex) k

/-- Modelled from the spec (section 7): causal read failure. -/
inductive CausalErr where
  | causalityNotYetSatisfied
deriving DecidableEq, Repr

/-- Modelled from the spec (section 4.4): a read carrying a causal token
blocks (or fails after a bounded timeout) until the targeted node's log
contains an entry with index at least the token; it then reads the node's
local prefix. -/
def causalRead {n : Nat} (s : KV n) (j : Fin n) (token : Nat) (k : String) :
    Except CausalErr (Option String) :=
  if token ≤ s.repl j then .ok (lookupKey (s.log.take (s.repl j)) k)
  else .error .causalityNotYetSatisfied

section AckLemmas

lemma ackRun_isSome_iff {n : Nat} (thr : Nat) (l : List (Fin n)) :
    ∀ seen : Finset (Fin n),
      (ackRun thr seen l).isSome = true ↔ thr ≤ (seen ∪ l.toFinset).card := by
  induction l with
  | nil =>
      intro seen
      by_cases h : thr ≤ seen.card <;> simp [ackRun, h]
  | cons a rest ih =>
      intro seen
      by_cases h : thr ≤ seen.card
      · have hsub : seen ⊆ seen ∪ (a :: rest).toFinset :=
          Finset.subset_union_left
        have hle : thr ≤ (seen ∪ (a :: rest).toFinset).card :=
          le_trans h (Finset.card_le_card hsub)
        rw [ackRun, if_pos h]
        simpa using hle
      · have hu : insert a seen ∪ rest.toFinset = seen ∪ (a :: rest).toFinset := by
          simp [List.toFinset_cons, Finset.union_comm, Finset.union_left_comm]
        rw [ackRun, if_neg h, ih (insert a seen), hu]

lemma doWrite_ack_iff {n : Nat} (s : KV n) (k v : String) (c : Concern)
    (acks : List (Fin n)) :
    (∃ i t, (doWrite s k v c acks).1 = .ack i t) ↔
      wthreshold s c ≤ (insert s.leaderId acks.toFinset).card := by
  have hins : ({s.leaderId} : Finset (Fin n)) ∪ acks.toFinset
      = insert s.leaderId acks.toFinset := by
    simp [Finset.insert_eq]
  rw [← hins, ← ackRun_isSome_iff (n := n) (wthreshold s c) acks {s.leaderId}]
  unfold doWrite
  cases h : ackRun (wthreshold s c) {s.leaderId} acks with
  | some t => simp [h]
  | none => simp [h]

end AckLemmas

/-- Claim C6: a write commits exactly when the acknowledgment count
(including the leader itself) reaches the requested concern's threshold:
1 for `one` (self only), the ceiling of (N+1)/2 of the N members for
`majority` (in natural-number arithmetic, (N+1+1)/2), and every live
member for `all`. -/
theorem write_commit_iff_threshold {n : Nat} (s : KV n) (k v : String)
    (c : Concern) (acks : List (Fin n)) :
    (∃ i t, (doWrite s k v c acks).1 = .ack i t) ↔
      (match c with
        | .one => 1
        | .majority => (n + 1 + 1) / 2
        | .all => liveCount s) ≤ (insert s.leaderId acks.toFinset).card := by
  rw [doWrite_ack_iff]
  cases c <;> rfl

/-- A concrete three-node cluster in its initial state, used by the
concrete executions below. -/
def kv0 : KV 3 :=
  { log := []
    commitIndex := 0
    repl := fun _ => 0
    leaderId := 0
    term := 1
    live := fun _ => true }

/-- Claim C5: there is an execution in which a `Local`-concern read issued
immediately after a `One`-concern write of the same key returns not-found:
the write is acknowledged (by the leader alone), yet a local read targeted
at a secondary that has not replicated the entry returns `none` — a
permitted non-guarantee, not an error. -/
theorem local_read_after_one_write_stale :
    (doWrite kv0 "x" "1" .one []).1 = .ack 1 1 ∧
      localRead (doWrite kv0 "x" "1" .one []).2 1 "x" = none := by
  constructor <;> rfl

section ReadLemmas

lemma lookupKey_append_single (l : List LogEntry) (e : LogEntry)
    (k : String) :
    lookupKey (l ++ [e]) k = if e.key = k then some e.value else lookupKey l k := by
  simp [lookupKey, List.foldl_append]

lemma take_full_of_le {α : Type} (l : List α) (m : Nat) (h : l.length ≤ m) :
    l.take m = l :=
  List.take_of_length_le h

lemma doWrite_snd_log {n : Nat} (s : KV n) (k v : String) (c : Concern)
    (acks : List (Fin n)) :
    ((doWrite s k v c acks).2).log = s.log ++ [writeEntry s k v] := by
  unfold doWrite
  cases h : ackRun (wthreshold s c) {s.leaderId} acks <;>
    simp [commitState, pendingState]

lemma doWrite_ack_commitIndex {n : Nat} (s : KV n) (k v : String)
    (c : Concern) (acks : List (Fin n)) (i t : Nat)
    (hw : (doWrite s k v c acks).1 = .ack i t) :
    ((doWrite s k v c acks).2).commitIndex = s.log.length + 1 ∧
      i = s.log.length + 1 ∧ t = s.log.length + 1 := by
  unfold doWrite at hw ⊢
  cases h : ackRun (wthreshold s c) {s.leaderId} acks with
  | some S =>
      rw [h] at hw
      simp at hw
      simp [h, commitState, hw.1.symm, hw.2.symm]
  | none =>
      rw [h] at hw
      simp at hw

end ReadLemmas

/-- Claim C1: for every write acknowledged under `majority` (or `all`)
write concern, a subsequent `majority`-concern read of the same key,
issued after the acknowledgment of the write is received and targeted at
any node `j` (including a secondary), returns the written value. -/
theorem quorum_write_then_majority_read {n : Nat} (s : KV n)
    (k v : String) (c : Concern) (acks : List (Fin n)) (i t : Nat)
    (j : Fin n)
    (hc : c = .majority ∨ c = .all)
    (hw : (doWrite s k v c acks).1 = .ack i t) :
    majorityRead (doWrite s k v c acks).2 j k = some v := by
  obtain ⟨hci, -, -⟩ := doWrite_ack_commitIndex s k v c acks i t hw
  unfold majorityRead
  rw [hci, doWrite_snd_log]
  rw [take_full_of_le _ _ (by simp)]
  simp [lookupKey_append_single, writeEntry]

/-- Witness for Claim C1: in a concrete three-node cluster, a
majority-acknowledged write of key x is returned by a majority read
targeted at node 2. -/
theorem quorum_write_then_majority_read_witness :
    majorityRead (doWrite kv0 "x" "7" .majority [1]).2 2 "x" = some "7" :=
  quorum_write_then_majority_read kv0 "x" "7" .majority [1] 1 1 2
    (Or.inl rfl) rfl

section CausalLemmas

lemma doWrite_ack_token {n : Nat} (s : KV n) (k v : String)
    (c : Concern) (acks : List (Fin n)) (i t : Nat)
    (hw : (doWrite s k v c acks).1 = .ack i t) :
    t = s.log.length + 1 :=
  (doWrite_ack_commitIndex s k v c acks i t hw).2.2

lemma causalRead_ok {n : Nat} (s : KV n) (j : Fin n) (token : Nat)
    (k : String) (r : Option String)
    (hr : causalRead s j token k = .ok r) :
    token ≤ s.repl j ∧ r = lookupKey (s.log.take (s.repl j)) k := by
  unfold causalRead at hr
  by_cases h : token ≤ s.repl j
  · rw [if_pos h] at hr
    exact ⟨h, by injection hr with h2; exact h2.symm⟩
  · rw [if_neg h] at hr
    cases hr

end CausalLemmas

/-- Claim C3: a causally consistent session writes A (key `kA`), observes
it, then writes B (key `kB`).  Any read supplied with the causal token of
B that completes (is not refused with `CausalityNotYetSatisfied`) reflects
both writes: it returns the value of B for `kB`, the read of `kA` under
the same token returns the value of A (never B without A), and the prefix
the read consulted contains every log entry with index at most the token
(here the whole log, since the token of B is the last index). -/
theorem causal_session_read {n : Nat} (s : KV n) (kA vA kB vB : String)
    (cA cB : Concern) (a1 a2 : List (Fin n)) (iA tA iB tB : Nat)
    (j : Fin n) (r : Option String)
    (hA : (doWrite s kA vA cA a1).1 = .ack iA tA)
    (hB : (doWrite (doWrite s kA vA cA a1).2 kB vB cB a2).1 = .ack iB tB)
    (hk : kA ≠ kB)
    (hr : causalRead (doWrite (doWrite s kA vA cA a1).2 kB vB cB a2).2
        j tB kB = .ok r) :
    r = some vB ∧
      causalRead (doWrite (doWrite s kA vA cA a1).2 kB vB cB a2).2
          j tB kA = .ok (some vA) ∧
      ((doWrite (doWrite s kA vA cA a1).2 kB vB cB a2).2).log.take
          (((doWrite (doWrite s kA vA cA a1).2 kB vB cB a2).2).repl j) =
        ((doWrite (doWrite s kA vA cA a1).2 kB vB cB a2).2).log := by
  set s1 : KV n := (doWrite s kA vA cA a1).2 with hs1
  set s2 : KV n := (doWrite s1 kB vB cB a2).2 with hs2
  have hlog1 : s1.log = s.log ++ [writeEntry s kA vA] := by
    rw [hs1, doWrite_snd_log]
  have hlog2 : s2.log = s1.log ++ [writeEntry s1 kB vB] := by
    rw [hs2, doWrite_snd_log]
  have htB : tB = s1.log.length + 1 := doWrite_ack_token s1 kB vB cB a2 iB tB hB
  have hlen : s2.log.length = tB := by
    rw [hlog2, htB]
    simp
  obtain ⟨hle, hrval⟩ := causalRead_ok s2 j tB kB r hr
  have htake : s2.log.take (s2.repl j) = s2.log :=
    take_full_of_le _ _ (by rw [hlen]; exact hle)
  have hkeyB : (writeEntry s1 kB vB).key = kB := rfl
  have hkeyA : (writeEntry s kA vA).key = kA := rfl
  have hvalB : (writeEntry s1 kB vB).value = vB := rfl
  have hvalA : (writeEntry s kA vA).value = vA := rfl
  refine ⟨?_, ?_, htake⟩
  · rw [hrval, htake, hlog2, lookupKey_append_single, hkeyB, if_pos rfl,
      hvalB]
  · unfold causalRead
    rw [if_pos hle, htake, hlog2, hlog1, lookupKey_append_single, hkeyB,
      if_neg (fun h => hk h.symm), lookupKey_append_single, hkeyA,
      if_pos rfl, hvalA]

/-- Witness for Claim C3: a concrete session on the three-node cluster
writes msg1 then msg2, both majority-acknowledged by node 1; a causal
read with the token of msg2 at node 1 returns msg2, the companion read
returns msg1, and the consulted prefix is the full log. -/
theorem causal_session_read_witness :
    some "Nice post" = some "Nice post" ∧
      causalRead (doWrite (doWrite kv0 "msg1" "Hello" .majority [1]).2
          "msg2" "Nice post" .majority [1]).2 1 2 "msg1" = .ok (some "Hello") ∧
      ((doWrite (doWrite kv0 "msg1" "Hello" .majority [1]).2
          "msg2" "Nice post" .majority [1]).2).log.take
          (((doWrite (doWrite kv0 "msg1" "Hello" .majority [1]).2
            "msg2" "Nice post" .majority [1]).2).repl 1) =
        ((doWrite (doWrite kv0 "msg1" "Hello" .majority [1]).2
          "msg2" "Nice post" .majority [1]).2).log :=
  causal_session_read kv0 "msg1" "Hello" "msg2" "Nice post"
    .majority .majority [1] [1] 1 1 2 2 1 (some "Nice post")
    rfl rfl (by decide) rfl

/-- Modelled from the spec (section 6): a client-facing request, either a
write (with the acknowledgment stream the environment will deliver) or a
causal-token read targeted at a node. -/
inductive Request (n : Nat) where
  | wr (k v : String) (c : Concern) (acks : List (Fin n))
  | rd (j : Fin n) (token : Nat) (k : String)

/-- Modelled from the spec (sections 6-7): each request yields exactly one
response; failures are ordinary response values, never uncatchable
faults. -/
inductive Response where
  | wrOk (committedIndex causalToken : Nat)
  | wrErr (e : WErr)
  | rdOk (v : Option String)
  | rdErr (e : CausalErr)
deriving DecidableEq, Repr

/-- The core handles one request exactly once and returns its (possibly
error) response together with the next state. -/
def handle {n : Nat} (s : KV n) : Request n → Response × KV n
  | .wr k v c acks =>
      match doWrite s k v c acks with
      | (.ack i t, s') => (.wrOk i t, s')
      | (.err e, s') => (.wrErr e, s')
  | .rd j token k =>
      match causalRead s j token k with
      | .ok v => (.rdOk v, s)
      | .error e => (.rdErr e, s)

/-- The core processes a sequence of client requests one at a time; no
request is ever re-submitted by the core itself. -/
def runRequests {n : Nat} (s : KV n) : List (Request n) → List Response × KV n
  | [] => ([], s)
  | r :: rs =>
      ((handle s r).1 :: (runRequests (handle s r).2 rs).1,
        (runRequests (handle s r).2 rs).2)

/-- The number of write requests in a request list. -/
def countWrites {n : Nat} : List (Request n) → Nat
  | [] => 0
  | .wr _ _ _ _ :: rs => countWrites rs + 1
  | .rd _ _ _ :: rs => countWrites rs

section RetryLemmas

lemma doWrite_snd_log_length {n : Nat} (s : KV n) (k v : String)
    (c : Concern) (acks : List (Fin n)) :
    ((doWrite s k v c acks).2).log.length = s.log.length + 1 := by
  rw [doWrite_snd_log]
  simp

lemma handle_log_length {n : Nat} (s : KV n) (r : Request n) :
    ((handle s r).2).log.length =
      s.log.length + (match r with | .wr _ _ _ _ => 1 | .rd _ _ _ => 0) := by
  cases r with
  | wr k v c acks =>
      have h := doWrite_snd_log_length s k v c acks
      simp only [handle]
      cases hw : doWrite s k v c acks with
      | mk res s' =>
          rw [hw] at h
          cases res <;> simpa using h
  | rd j token k =>
      simp only [handle]
      cases hc : causalRead s j token k <;> simp

end RetryLemmas

/-- Claim C7: the core never silently retries an operation.  Processing a
request list yields exactly one explicit response per request (errors are
ordinary response values, returned exactly once), and the log grows by
exactly one entry per write request — each write is appended once and
never automatically re-submitted, whether it committed or failed. -/
theorem no_silent_retry {n : Nat} (s : KV n) (reqs : List (Request n)) :
    (runRequests s reqs).1.length = reqs.length ∧
      ((runRequests s reqs).2).log.length = s.log.length + countWrites reqs := by
  induction reqs generalizing s with
  | nil => simp [runRequests, countWrites]
  | cons r rs ih =>
      obtain ⟨ihLen, ihLog⟩ := ih (handle s r).2
      constructor
      · simpa [runRequests] using ihLen
      · rw [runRequests]
        simp only
        rw [ihLog, handle_log_length]
        cases r <;> simp [countWrites] <;> omega

end KVStore

namespace Consensus

/-- Modelled from the spec (section 3, Node): per-node role. -/
inductive Role where
  | Leader
  | Follower
  | Candidate
  | Offline
deriving DecidableEq, Repr

/-- Modelled from the spec (sections 3 and 4.2, Consensus/Leader Module):
the election-relevant cluster state over `n` members.  `votedFor j t` is
the write-once record of the vote node `j` granted in term `t` (a node
votes at most once per term); `currentTerm j` is the highest term node
`j` has adopted. -/
structure EState (n : Nat) where
  role : Fin n → Role
  currentTerm : Fin n → Nat
  votedFor : Fin n → Nat → Option (Fin n)

/-- Initial cluster: everyone a follower at term 0, no votes granted. -/
def initState (n : Nat) : EState n :=
  { role := fun _ => .Follower
    currentTerm := fun _ => 0
    votedFor := fun _ _ => none }

/-- State after node `i` starts an election: it becomes a candidate in the
next term and votes for itself there. -/
def startState {n : Nat} (s : EState n) (i : Fin n) : EState n :=
  { role := Function.update s.role i .Candidate
    currentTerm := Function.update s.currentTerm i (s.currentTerm i + 1)
    votedFor := fun j t =>
      if j = i ∧ t = s.currentTerm i + 1 then some i else s.votedFor j t }

/-- State after node `j` grants its (write-once) vote for candidate `c`
in term `t`, adopting that term. -/
def grantState {n : Nat} (s : EState n) (j c : Fin n) (t : Nat) : EState n :=
  { role := Function.update s.role j .Follower
    currentTerm := Function.update s.currentTerm j t
    votedFor := fun j' t' =>
      if j' = j ∧ t' = t then some c else s.votedFor j' t' }

/-- State after candidate `i` wins its election. -/
def electState {n : Nat} (s : EState n) (i : Fin n) : EState n :=
  { s with role := Function.update s.role i .Leader }

/-- State after node `i` discovers the higher term `t` and steps down. -/
def downState {n : Nat} (s : EState n) (i : Fin n) (t : Nat) : EState n :=
  { s with
    role := Function.update s.role i .Follower
    currentTerm := Function.update s.currentTerm i t }

/-- State after node `i` is killed. -/
def killState {n : Nat} (s : EState n) (i : Fin n) : EState n :=
  { s with role := Function.update s.role i .Offline }

/-- State after the offline node `i` restarts as a follower. -/
def recoverState {n : Nat} (s : EState n) (i : Fin n) : EState n :=
  { s with role := Function.update s.role i .Follower }

/-- The kind of transition taken, used to restrict traces. -/
inductive Label (n : Nat) where
  | start (i : Fin n)
  | grant (j c : Fin n) (t : Nat)
  | elect (i : Fin n) (S : Finset (Fin n))
  | stepdown (i : Fin n) (t : Nat)
  | kill (i : Fin n)
  | recover (i : Fin n)

/-- Modelled from the spec (section 4.2): the transitions of the
consensus module.  A node starts an election by moving to the next term
as a candidate (voting for itself); a node grants at most one vote per
term and only for terms not behind its own; a candidate becomes leader
only with votes from a strict majority of the `n` members in its current
term; a node discovering a higher term immediately becomes a follower;
nodes can be killed and can recover as followers. -/
inductive EStep {n : Nat} : Label n → EState n → EState n → Prop where
  | start (s : EState n) (i : Fin n)
      (hrole : s.role i ≠ Role.Leader)
      (hvote : s.votedFor i (s.currentTerm i + 1) = none) :
      EStep (.start i) s (startState s i)
  | grant (s : EState n) (j c : Fin n) (t : Nat)
      (hterm : s.currentTerm j ≤ t)
      (hvote : s.votedFor j t = none) :
      EStep (.grant j c t) s (grantState s j c t)
  | elect (s : EState n) (i : Fin n) (S : Finset (Fin n))
      (hrole : s.role i = Role.Candidate)
      (hmaj : n < 2 * S.card)
      (hvotes : ∀ j ∈ S, s.votedFor j (s.currentTerm i) = some i) :
      EStep (.elect i S) s (electState s i)
  | stepdown (s : EState n) (i : Fin n) (t : Nat)
      (hterm : s.currentTerm i < t) :
      EStep (.stepdown i t) s (downState s i t)
  | kill (s : EState n) (i : Fin n) :
      EStep (.kill i) s (killState s i)
  | recover (s : EState n) (i : Fin n)
      (hrole : s.role i = Role.Offline) :
      EStep (.recover i) s (recoverState s i)

/-- Some transition relates the two states. -/
def stepRel {n : Nat} (s s' : EState n) : Prop := ∃ l, EStep l s s'

/-- Finitely many transitions relate the two states. -/
def Steps {n : Nat} : EState n → EState n → Prop :=
  Relation.ReflTransGen stepRel

/-- A cluster state reachable from the initial state. -/
def Reachable {n : Nat} (s : EState n) : Prop := Steps (initState n) s

/-- Some transition other than an election win of node `i` relates the
two states. -/
def stepRelNE {n : Nat} (i : Fin n) (s s' : EState n) : Prop :=
  ∃ l, EStep l s s' ∧ ∀ S, l ≠ Label.elect i S

/-- Finitely many transitions, none an election win of node `i`. -/
def StepsNE {n : Nat} (i : Fin n) : EState n → EState n → Prop :=
  Relation.ReflTransGen (stepRelNE i)

lemma step_term_mono {n : Nat} {l : Label n} {s s' : EState n}
    (h : EStep l s s') (j : Fin n) :
    s.currentTerm j ≤ s'.currentTerm j := by
  cases h with
  | start s i h1 h2 =>
      simp only [startState, Function.update_apply]
      split
      · next hji => rw [hji]; exact Nat.le_succ _
      · exact le_rfl
  | grant s jg cg tg hterm hvote =>
      simp only [grantState, Function.update_apply]
      split
      · next hji => rw [hji]; exact hterm
      · exact le_rfl
  | elect s i S h1 h2 h3 => exact le_rfl
  | stepdown s i t hterm =>
      simp only [downState, Function.update_apply]
      split
      · next hji => rw [hji]; exact hterm.le
      · exact le_rfl
  | kill s i => exact le_rfl
  | recover s i h1 => exact le_rfl

lemma step_vote_persist {n : Nat} {l : Label n} {s s' : EState n}
    (h : EStep l s s') {j : Fin n} {t : Nat} {c : Fin n}
    (hv : s.votedFor j t = some c) :
    s'.votedFor j t = some c := by
  cases h with
  | start s i h1 hvote =>
      simp only [startState]
      by_cases hc : j = i ∧ t = s.currentTerm i + 1
      · obtain ⟨he1, he2⟩ := hc
        subst he1; subst he2
        rw [hvote] at hv
        cases hv
      · rw [if_neg hc]; exact hv
  | grant s jg cg tg hterm hvote =>
      simp only [grantState]
      by_cases hc : j = jg ∧ t = tg
      · obtain ⟨he1, he2⟩ := hc
        subst he1; subst he2
        rw [hvote] at hv
        cases hv
      · rw [if_neg hc]; exact hv
  | elect s i S h1 h2 h3 => exact hv
  | stepdown s i t2 h1 => exact hv
  | kill s i => exact hv
  | recover s i h1 => exact hv

lemma step_vote_grantBound {n : Nat} {l : Label n} {s s' : EState n}
    (h : EStep l s s') {j : Fin n} {t : Nat}
    (hnone : s.votedFor j t = none) (hsome : s'.votedFor j t ≠ none) :
    s.currentTerm j ≤ t := by
  cases h with
  | start s i h1 hvote =>
      simp only [startState] at hsome
      by_cases hc : j = i ∧ t = s.currentTerm i + 1
      · obtain ⟨he1, he2⟩ := hc
        subst he1; subst he2
        exact Nat.le_succ _
      · rw [if_neg hc, hnone] at hsome
        exact absurd rfl hsome
  | grant s jg cg tg hterm hvote =>
      by_cases hc : j = jg ∧ t = tg
      · obtain ⟨he1, he2⟩ := hc
        subst he1; subst he2
        exact hterm
      · simp only [grantState] at hsome
        rw [if_neg hc, hnone] at hsome
        exact absurd rfl hsome
  | elect s i S h1 h2 h3 => exact absurd hnone hsome
  | stepdown s i t2 h1 => exact absurd hnone hsome
  | kill s i => exact absurd hnone hsome
  | recover s i h1 => exact absurd hnone hsome

lemma steps_term_mono {n : Nat} {s s' : EState n} (h : Steps s s')
    (j : Fin n) : s.currentTerm j ≤ s'.currentTerm j := by
  induction h with
  | refl => exact le_rfl
  | tail hst hstep ih =>
      obtain ⟨l, hl⟩ := hstep
      exact le_trans ih (step_term_mono hl j)

lemma steps_vote_persist {n : Nat} {s s' : EState n} (h : Steps s s')
    {j : Fin n} {t : Nat} {c : Fin n} (hv : s.votedFor j t = some c) :
    s'.votedFor j t = some c := by
  induction h with
  | refl => exact hv
  | tail hst hstep ih =>
      obtain ⟨l, hl⟩ := hstep
      exact step_vote_persist hl ih

/-- If a vote of node `j` in term `t` appears somewhere along a trace,
the term `t` is at least the current term node `j` had at the start of
the trace (votes are only ever granted for terms not behind the voter). -/
lemma steps_grant_term_le {n : Nat} {s s' : EState n} (h : Steps s s')
    {j : Fin n} {t : Nat} (hnone : s.votedFor j t = none) :
    s'.votedFor j t ≠ none → s.currentTerm j ≤ t := by
  induction h with
  | refl => intro hsome; exact absurd hnone hsome
  | @tail b c hst hstep ih =>
      intro hsome
      obtain ⟨l, hl⟩ := hstep
      by_cases hb : b.votedFor j t = none
      · exact le_trans (steps_term_mono hst j) (step_vote_grantBound hl hb hsome)
      · exact ih hb

/-- Votes are adopted only up to the voter's current term. -/
def VoteTermInv {n : Nat} (s : EState n) : Prop :=
  ∀ j t, s.votedFor j t ≠ none → t ≤ s.currentTerm j

/-- Every current leader was elected by a strict majority that voted for
it in its current term. -/
def LeaderQuorumInv {n : Nat} (s : EState n) : Prop :=
  ∀ i, s.role i = Role.Leader →
    ∃ S : Finset (Fin n), n < 2 * S.card ∧
      ∀ j ∈ S, s.votedFor j (s.currentTerm i) = some i

/-- The inductive invariant of the consensus module. -/
def Inv {n : Nat} (s : EState n) : Prop := VoteTermInv s ∧ LeaderQuorumInv s

lemma inv_step {n : Nat} {l : Label n} {s s' : EState n}
    (h : EStep l s s') (hinv : Inv s) : Inv s' := by
  obtain ⟨hvt, hlq⟩ := hinv
  cases h with
  | start s i hrole hvote =>
      constructor
      · intro j t hne
        simp only [startState, Function.update_apply] at hne ⊢
        by_cases hc : j = i ∧ t = s.currentTerm i + 1
        · obtain ⟨he1, he2⟩ := hc
          subst he1; subst he2
          simp
        · rw [if_neg hc] at hne
          have ht := hvt j t hne
          by_cases hji : j = i
          · rw [if_pos hji]; subst hji; exact le_trans ht (Nat.le_succ _)
          · rw [if_neg hji]; exact ht
      · intro k hk
        simp only [startState, Function.update_apply] at hk ⊢
        have hki : ¬(k = i) := by
          intro he
          rw [if_pos he] at hk
          cases hk
        rw [if_neg hki] at hk
        obtain ⟨S, hS, hSv⟩ := hlq k hk
        refine ⟨S, hS, ?_⟩
        intro j hj
        have hvj := hSv j hj
        rw [if_neg hki]
        by_cases hc : j = i ∧ s.currentTerm k = s.currentTerm i + 1
        · obtain ⟨he1, he2⟩ := hc
          subst he1
          rw [he2] at hvj
          rw [hvote] at hvj
          cases hvj
        · rw [if_neg hc]
          exact hvj
  | grant s jg cg tg hterm hvote =>
      constructor
      · intro j t hne
        simp only [grantState, Function.update_apply] at hne ⊢
        by_cases hc : j = jg ∧ t = tg
        · obtain ⟨he1, he2⟩ := hc
          subst he1; subst he2
          simp
        · rw [if_neg hc] at hne
          have ht := hvt j t hne
          by_cases hji : j = jg
          · rw [if_pos hji]; subst hji; exact le_trans ht hterm
          · rw [if_neg hji]; exact ht
      · intro k hk
        simp only [grantState, Function.update_apply] at hk ⊢
        have hkj : ¬(k = jg) := by
          intro he
          rw [if_pos he] at hk
          cases hk
        rw [if_neg hkj] at hk
        obtain ⟨S, hS, hSv⟩ := hlq k hk
        refine ⟨S, hS, ?_⟩
        intro j hj
        have hvj := hSv j hj
        rw [if_neg hkj]
        by_cases hc : j = jg ∧ s.currentTerm k = tg
        · obtain ⟨he1, he2⟩ := hc
          subst he1
          rw [he2] at hvj
          rw [hvote] at hvj
          cases hvj
        · rw [if_neg hc]
          exact hvj
  | elect s i S hrole hmaj hvotes =>
      constructor
      · exact hvt
      · intro k hk
        simp only [electState, Function.update_apply] at hk
        by_cases hki : k = i
        · subst hki
          exact ⟨S, hmaj, hvotes⟩
        · rw [if_neg hki] at hk
          exact hlq k hk
  | stepdown s i t hterm =>
      constructor
      · intro j t' hne
        simp only [downState, Function.update_apply] at hne ⊢
        have ht := hvt j t' hne
        by_cases hji : j = i
        · rw [if_pos hji]; subst hji; exact le_trans ht hterm.le
        · rw [if_neg hji]; exact ht
      · intro k hk
        simp only [downState, Function.update_apply] at hk ⊢
        have hki : ¬(k = i) := by
          intro he
          rw [if_pos he] at hk
          cases hk
        rw [if_neg hki] at hk
        obtain ⟨S, hS, hSv⟩ := hlq k hk
        refine ⟨S, hS, ?_⟩
        intro j hj
        rw [if_neg hki]
        exact hSv j hj
  | kill s i =>
      constructor
      · exact hvt
      · intro k hk
        simp only [killState, Function.update_apply] at hk
        by_cases hki : k = i
        · rw [if_pos hki] at hk; cases hk
        · rw [if_neg hki] at hk
          exact hlq k hk
  | recover s i h1 =>
      constructor
      · exact hvt
      · intro k hk
        simp only [recoverState, Function.update_apply] at hk
        by_cases hki : k = i
        · rw [if_pos hki] at hk; cases hk
        · rw [if_neg hki] at hk
          exact hlq k hk

lemma inv_reachable {n : Nat} {s : EState n} (h : Reachable s) : Inv s := by
  induction h with
  | refl =>
      constructor
      · intro j t hne
        exact absurd rfl hne
      · intro i hi
        cases hi
  | tail hst hstep ih =>
      obtain ⟨l, hl⟩ := hstep
      exact inv_step hl ih

lemma quorum_overlap {n : Nat} (S T : Finset (Fin n))
    (hS : n < 2 * S.card) (hT : n < 2 * T.card) :
    ∃ j, j ∈ S ∧ j ∈ T := by
  have hU : (S ∪ T).card ≤ n := by
    have h := Finset.card_le_univ (S ∪ T)
    simpa [Fintype.card_fin] using h
  have hci := Finset.card_union_add_card_inter S T
  have hpos : 0 < (S ∩ T).card := by omega
  obtain ⟨j, hj⟩ := Finset.card_pos.mp hpos
  exact ⟨j, Finset.mem_inter.mp hj⟩

/-- Claim C2: in every reachable cluster state, at most one node holds
the role Leader for any given term: two current leaders with the same
current term are the same node. -/
theorem election_safety {n : Nat} (s : EState n) (i i' : Fin n)
    (hr : Reachable s) (hi : s.role i = Role.Leader)
    (hi' : s.role i' = Role.Leader)
    (ht : s.currentTerm i = s.currentTerm i') : i = i' := by
  obtain ⟨-, hlq⟩ := inv_reachable hr
  obtain ⟨S, hS, hSv⟩ := hlq i hi
  obtain ⟨T, hT, hTv⟩ := hlq i' hi'
  obtain ⟨j, hjS, hjT⟩ := quorum_overlap S T hS hT
  have h1 := hSv j hjS
  have h2 := hTv j hjT
  rw [ht] at h1
  rw [h1] at h2
  injection h2

/-- A concrete three-node cluster, freshly initialised. -/
def w0 : EState 3 := initState 3

/-- Node 0 starts an election for term 1. -/
def w1 : EState 3 := startState w0 0

/-- Node 1 grants node 0 its vote in term 1. -/
def w2 : EState 3 := grantState w1 1 0 1

/-- Node 0 wins and leads term 1. -/
def w3 : EState 3 := electState w2 0

lemma reach_w3 : Reachable w3 := by
  have h1 : EStep (Label.start 0) w0 w1 :=
    EStep.start w0 0 (by decide) (by decide)
  have h2 : EStep (Label.grant 1 0 1) w1 w2 :=
    EStep.grant w1 1 0 1 (by decide) (by decide)
  have h3 : EStep (Label.elect 0 {0, 1}) w2 w3 :=
    EStep.elect w2 0 {0, 1} (by decide) (by decide) (by decide)
  exact Relation.ReflTransGen.tail
    (Relation.ReflTransGen.tail
      (Relation.ReflTransGen.tail Relation.ReflTransGen.refl ⟨_, h1⟩)
      ⟨_, h2⟩)
    ⟨_, h3⟩

/-- Witness for Claim C2: the concrete reachable state `w3` has node 0 as
leader, and the theorem applied there identifies the two leaders of term
1. -/
theorem election_safety_witness :
    w3.role 0 = Role.Leader ∧ (0 : Fin 3) = 0 :=
  ⟨by decide, election_safety w3 0 0 reach_w3 (by decide) (by decide) rfl⟩

/-- Modelled from the spec (section 7): the outcome of a write as seen by
the client. -/
inductive WOutcome where
  | ack
  | notLeader
  | lostLeadership
deriving DecidableEq, Repr

/-- Modelled from the spec (sections 4.3 and 7): outcome of a write
submitted to node `i`, where `s0` is the cluster state at submission time
and `s1` the state when the quorum wait resolves.  A non-leader rejects
immediately with NotLeaderError; a leader that loses leadership (role
change or higher term) before quorum returns LostLeadershipError;
otherwise the write is acknowledged. -/
def submitWrite {n : Nat} (s0 s1 : EState n) (i : Fin n) : WOutcome :=
  if s0.role i ≠ Role.Leader then .notLeader
  else if s1.role i ≠ Role.Leader ∨ s0.currentTerm i < s1.currentTerm i then
    .lostLeadership
  else .ack

lemma stepNE_role_not_leader {n : Nat} {i : Fin n} {l : Label n}
    {s s' : EState n} (h : EStep l s s')
    (hne : ∀ S, l ≠ Label.elect i S)
    (hr : s.role i ≠ Role.Leader) : s'.role i ≠ Role.Leader := by
  cases h with
  | start s j h1 h2 =>
      simp only [startState, Function.update_apply]
      by_cases hij : i = j
      · rw [if_pos hij]
        exact fun hc => Role.noConfusion hc
      · rw [if_neg hij]
        exact hr
  | grant s jg cg tg h1 h2 =>
      simp only [grantState, Function.update_apply]
      by_cases hij : i = jg
      · rw [if_pos hij]
        exact fun hc => Role.noConfusion hc
      · rw [if_neg hij]
        exact hr
  | elect s j S h1 h2 h3 =>
      have hij : ¬(i = j) := by
        intro he
        subst he
        exact hne S rfl
      simp only [electState, Function.update_apply]
      rw [if_neg hij]
      exact hr
  | stepdown s j t h1 =>
      simp only [downState, Function.update_apply]
      by_cases hij : i = j
      · rw [if_pos hij]
        exact fun hc => Role.noConfusion hc
      · rw [if_neg hij]
        exact hr
  | kill s j =>
      simp only [killState, Function.update_apply]
      by_cases hij : i = j
      · rw [if_pos hij]
        exact fun hc => Role.noConfusion hc
      · rw [if_neg hij]
        exact hr
  | recover s j h1 =>
      simp only [recoverState, Function.update_apply]
      by_cases hij : i = j
      · rw [if_pos hij]
        exact fun hc => Role.noConfusion hc
      · rw [if_neg hij]
        exact hr

lemma stepsNE_role_not_leader {n : Nat} {i : Fin n} {s s' : EState n}
    (h : StepsNE i s s') (hr : s.role i ≠ Role.Leader) :
    s'.role i ≠ Role.Leader := by
  induction h with
  | refl => exact hr
  | tail hst hstep ih =>
      obtain ⟨l, hl, hlne⟩ := hstep
      exact stepNE_role_not_leader hl hlne ih

lemma stepsNE_steps {n : Nat} {i : Fin n} {s s' : EState n}
    (h : StepsNE i s s') : Steps s s' := by
  induction h with
  | refl => exact Relation.ReflTransGen.refl
  | tail hst hstep ih =>
      obtain ⟨l, hl, -⟩ := hstep
      exact Relation.ReflTransGen.tail ih ⟨l, hl⟩

/-- Claim C4: the current leader `i` of a reachable state `s` is killed;
along any subsequent trace in which `i` is not re-elected, if a different
node `i'` then wins an election whose majority `S'` consists of votes
granted after the failure (they were absent in `s`), the new leader's
term is strictly higher than the old leader's term; and every write
submitted to the old leader during that window returns NotLeaderError —
never a silent acknowledgment. -/
theorem leader_failover_safety {n : Nat} (s s2 : EState n) (i i' : Fin n)
    (S' : Finset (Fin n))
    (hr : Reachable s) (hi : s.role i = Role.Leader)
    (hmid : StepsNE i (killState s i) s2)
    (helect : EStep (Label.elect i' S') s2 (electState s2 i'))
    (hfresh : ∀ j ∈ S', s.votedFor j (s2.currentTerm i') = none)
    (hne : i' ≠ i) :
    s.currentTerm i < s2.currentTerm i' ∧
      ∀ sW, submitWrite s2 sW i = WOutcome.notLeader ∧
        submitWrite s2 sW i ≠ WOutcome.ack := by
  obtain ⟨hvt, hlq⟩ := inv_reachable hr
  obtain ⟨S, hS, hSv⟩ := hlq i hi
  have hmaj : n < 2 * S'.card := by
    cases helect with
    | elect _ _ _ h1 h2 h3 => exact h2
  have hvotes : ∀ j ∈ S', s2.votedFor j (s2.currentTerm i') = some i' := by
    cases helect with
    | elect _ _ _ h1 h2 h3 => exact h3
  obtain ⟨j, hjS, hjS'⟩ := quorum_overlap S S' hS hmaj
  have hkill : EStep (Label.kill i) s (killState s i) := EStep.kill s i
  have hsteps : Steps s s2 :=
    Relation.ReflTransGen.head ⟨_, hkill⟩ (stepsNE_steps hmid)
  have hvj : s.votedFor j (s.currentTerm i) = some i := hSv j hjS
  have hTj : s.currentTerm i ≤ s.currentTerm j := by
    apply hvt
    rw [hvj]
    exact fun hc => Option.noConfusion hc
  have hfj : s.votedFor j (s2.currentTerm i') = none := hfresh j hjS'
  have hvj2 : s2.votedFor j (s2.currentTerm i') = some i' := hvotes j hjS'
  have hle : s.currentTerm j ≤ s2.currentTerm i' := by
    apply steps_grant_term_le hsteps hfj
    rw [hvj2]
    exact fun hc => Option.noConfusion hc
  have hTle : s.currentTerm i ≤ s2.currentTerm i' := le_trans hTj hle
  have hnoteq : s.currentTerm i ≠ s2.currentTerm i' := by
    intro he
    have hpers : s2.votedFor j (s.currentTerm i) = some i :=
      steps_vote_persist hsteps hvj
    rw [he, hvj2] at hpers
    injection hpers with hii
    exact hne hii
  have hnotLeader : s2.role i ≠ Role.Leader := by
    apply stepsNE_role_not_leader hmid
    simp only [killState, Function.update_apply, if_pos rfl]
    exact fun hc => Role.noConfusion hc
  refine ⟨lt_of_le_of_ne hTle hnoteq, ?_⟩
  intro sW
  have hsw : submitWrite s2 sW i = WOutcome.notLeader := by
    unfold submitWrite
    rw [if_pos hnotLeader]
  exact ⟨hsw, by rw [hsw]; exact fun hc => WOutcome.noConfusion hc⟩

/-- Leader 0 of the concrete cluster is killed. -/
def w4 : EState 3 := killState w3 0

/-- Node 1 starts an election for term 2. -/
def w5 : EState 3 := startState w4 1

/-- Node 2 grants node 1 its vote in term 2. -/
def w6 : EState 3 := grantState w5 2 1 2

lemma w6_stepsNE : StepsNE 0 w4 w6 := by
  have h1 : EStep (Label.start 1) w4 w5 :=
    EStep.start w4 1 (by decide) (by decide)
  have h2 : EStep (Label.grant 2 1 2) w5 w6 :=
    EStep.grant w5 2 1 2 (by decide) (by decide)
  exact Relation.ReflTransGen.tail
    (Relation.ReflTransGen.tail Relation.ReflTransGen.refl
      ⟨_, h1, fun S hc => by cases hc⟩)
    ⟨_, h2, fun S hc => by cases hc⟩

/-- Witness for Claim C4: in the concrete failover trace, node 1 wins
term 2 after leader 0 (term 1) is killed; the new term is strictly
higher, and a write submitted to node 0 during the window returns
NotLeaderError and is not acknowledged. -/
theorem leader_failover_safety_witness :
    w3.currentTerm 0 < w6.currentTerm 1 ∧
      submitWrite w6 w3 0 = WOutcome.notLeader ∧
      submitWrite w6 w3 0 ≠ WOutcome.ack := by
  have helect : EStep (Label.elect 1 {1, 2}) w6 (electState w6 1) :=
    EStep.elect w6 1 {1, 2} (by decide) (by decide) (by decide)
  have h := leader_failover_safety w3 w6 0 1 {1, 2} reach_w3 (by decide)
    w6_stepsNE helect (by decide) (by decide)
  exact ⟨h.1, (h.2 w3).1, (h.2 w3).2⟩

end Consensus

namespace Scripts

/-- A document of the userProfile collection as built by the scripts
(embedded from `setup_baseline.py` and `replication_experiment.py`): the
primary key `id` (the Mongo \x5fid), the `userId` field written alongside
it, the username/email payload, and the before/after-failover marker. -/
structure UserDoc where
  id : String
  userId : String
  username : String
  email : String
  beforeFailover : Bool
deriving DecidableEq, Repr

/-- Zero-padding to width 3 of a natural number, as the format spec 03
does in the scripts' id formatting. -/
def pad3 (i : Nat) : String :=
  if i < 10 then "00" ++ toString i
  else if i < 100 then "0" ++ toString i
  else toString i

/-- The id u001, u002, ... built for baseline document `i`. -/
def userIdStr (i : Nat) : String := "u" ++ pad3 i

/-- The baseline document inserted for index `i`
(from `setup_baseline.py`, step 2). -/
def baselineDoc (i : Nat) : UserDoc :=
  { id := userIdStr i
    userId := userIdStr i
    username := "Tan_" ++ toString i
    email := "Tan_" ++ toString i ++ "@example.com"
    beforeFailover := true }

/-- insert_one with the DuplicateKeyError handler of the scripts: a
document whose primary key already exists is skipped, otherwise it is
appended. -/
def insertOne (coll : List UserDoc) (d : UserDoc) : List UserDoc :=
  if coll.any fun x => x.id == d.id then coll else coll ++ [d]

/-- Step 2 of `setup_baseline.py`: if the collection is non-empty,
delete_many removes every document; then the five baseline documents
u001 to u005 are inserted in order. -/
def setupBaselineStep2 (coll : List UserDoc) : List UserDoc :=
  (List.range' 1 5).foldl (fun c i => insertOne c (baselineDoc i))
    (if 0 < coll.length then [] else coll)

/-- Claim C8: whenever the userProfile collection is non-empty at the
start of the baseline step, every existing document is deleted before
inserting, so after the step the collection contains exactly the five
baseline documents, whose ids are u001 through u005. -/
theorem setup_baseline_exact_five (coll : List UserDoc) (h : coll ≠ []) :
    setupBaselineStep2 coll =
      [baselineDoc 1, baselineDoc 2, baselineDoc 3, baselineDoc 4,
        baselineDoc 5] ∧
      (setupBaselineStep2 coll).map UserDoc.id =
        ["u001", "u002", "u003", "u004", "u005"] := by
  have h1 : 0 < coll.length := List.length_pos.mpr h
  unfold setupBaselineStep2
  rw [if_pos h1]
  exact ⟨rfl, rfl⟩

/-- Witness for Claim C8: running the baseline step on a non-empty
collection (holding a stray document) yields exactly u001 to u005. -/
theorem setup_baseline_exact_five_witness :
    setupBaselineStep2 [baselineDoc 9] =
      [baselineDoc 1, baselineDoc 2, baselineDoc 3, baselineDoc 4,
        baselineDoc 5] ∧
      (setupBaselineStep2 [baselineDoc 9]).map UserDoc.id =
        ["u001", "u002", "u003", "u004", "u005"] :=
  setup_baseline_exact_five [baselineDoc 9] (by decide)

/-- Python lstrip of the letter u: drop every leading u character
(from `replication_experiment.py`, step 6). -/
def lstripU (s : String) : String :=
  String.mk (s.data.dropWhile fun ch => ch == 'u')

/-- Decimal digit-string value, or `none` when the characters are not a
non-empty run of digits. -/
def decDigits (l : List Char) : Option Nat :=
  if !l.isEmpty && l.all Char.isDigit then
    some (l.foldl (fun a ch => a * 10 + (ch.toNat - 48)) 0)
  else none

/-- Shallow embedding of the Python built-in int() on the strings arising
here: an optional sign followed by at least one decimal digit (whitespace
trimming and underscore separators never occur in this data and are
omitted).  `none` models the ValueError int() raises otherwise. -/
def pyInt (s : String) : Option Int :=
  match s.data with
  | '-' :: rest => (decDigits rest).map fun m => -(m : Int)
  | '+' :: rest => (decDigits rest).map fun m => (m : Int)
  | l => (decDigits l).map fun m => (m : Int)

/-- Zero-padded width-3 formatting of a possibly negative integer, as the
Python format spec 03 renders it. -/
def py03 (m : Int) : String :=
  if m < 0 then
    (if (-m).toNat < 10 then "-0" ++ toString (-m).toNat
      else "-" ++ toString (-m).toNat)
  else pad3 m.toNat

/-- The post-failover document `replication_experiment.py` step 6 inserts
for the computed next number `m`. -/
def failoverDoc (m : Int) : UserDoc :=
  { id := "u" ++ py03 m
    userId := "u" ++ py03 m
    username := "user_" ++ toString m
    email := "user_" ++ toString m ++ "@example.com"
    beforeFailover := false }

/-- find_one sorted by user_id descending: the lexicographically largest
user_id of the collection, or `none` when the collection is empty. -/
def maxUserId (coll : List UserDoc) : Option String :=
  coll.foldl
    (fun acc d =>
      match acc with
      | none => some d.userId
      | some m => if m < d.userId then some d.userId else some m)
    none

/-- The Python error the id-increment step can raise. -/
inductive PyError where
  | valueError
deriving DecidableEq, Repr

/-- Step 6 of `replication_experiment.py`: take the largest user_id (or
start at 1 if the collection is empty), strip the leading u letters, parse
the remainder with int() — an unhandled ValueError aborts the step — and
insert a document with the incremented, re-formatted id. -/
def step6 (coll : List UserDoc) : Except PyError (List UserDoc) :=
  match maxUserId coll with
  | none => .ok (insertOne coll (failoverDoc 1))
  | some uid =>
      match pyInt (lstripU uid) with
      | none => .error .valueError
      | some m => .ok (insertOne coll (failoverDoc (m + 1)))

/-- The shape asserted by Claim C9: the letter u followed only by digits
(at least one). -/
def isUDigitsForm (s : String) : Bool :=
  match s.data with
  | 'u' :: rest => !rest.isEmpty && rest.all Char.isDigit
  | _ => false

/-- A stray document whose user_id is not of the u-digits shape but whose
lstrip-u remainder still parses as an integer. -/
def oddDoc : UserDoc :=
  { id := "uu006"
    userId := "uu006"
    username := "odd"
    email := "odd@example.com"
    beforeFailover := true }

/-- Counterexample to Claim C9 as stated: with largest user_id uu006 —
not of the form u followed only by digits — the id-increment step does
not raise ValueError; lstrip removes both leading u letters, int parses
006, and the step inserts u007. -/
theorem step6_nondigit_counterexample :
    maxUserId [oddDoc] = some "uu006" ∧
      isUDigitsForm "uu006" = false ∧
      step6 [oddDoc] = .ok [oddDoc, failoverDoc 7] ∧
      step6 [oddDoc] ≠ .error PyError.valueError := by
  refine ⟨rfl, by decide, rfl, ?_⟩
  rw [show step6 [oddDoc] = .ok [oddDoc, failoverDoc 7] from rfl]
  exact fun hc => Except.noConfusion hc

/-- Claim C9 (amended): the post-failover id-increment step raises an
unhandled ValueError exactly when stripping every leading u character
from the largest user_id leaves a string that int() cannot parse (so a
uid_-timestamp id raises, while e.g. uu006 parses and a document is still
inserted). -/
theorem step6_valueError_iff (coll : List UserDoc) (uid : String)
    (h : maxUserId coll = some uid) :
    step6 coll = .error PyError.valueError ↔ pyInt (lstripU uid) = none := by
  unfold step6
  rw [h]
  cases hp : pyInt (lstripU uid) with
  | none => simp [hp]
  | some m => simp [hp]

/-- A document carrying a uid_-timestamp id, as inserted by
`eventual_consistency_experiment.py` and `strong_consistency_experiment.py`. -/
def tsDoc : UserDoc :=
  { id := "uid_1730000000"
    userId := "uid_1730000000"
    username := "rose_eventual"
    email := "rose_eventual@example.com"
    beforeFailover := false }

/-- Witness for Claim C9 (amended): on a collection whose largest user_id
is a uid_-timestamp id inserted by the other experiment scripts, the
parse fails and the step does raise ValueError. -/
theorem step6_valueError_iff_witness :
    (step6 [tsDoc] = .error PyError.valueError ↔
      pyInt (lstripU "uid_1730000000") = none) ∧
      step6 [tsDoc] = .error PyError.valueError := by
  have h := step6_valueError_iff [tsDoc] "uid_1730000000" rfl
  exact ⟨h, h.mpr rfl⟩

/-- A document as returned by find_one in
`eventual_consistency_experiment.py`: only its user_id field is consulted,
and the field may be absent. -/
structure MDoc where
  userId : Option String
deriving DecidableEq, Repr

/-- The loop's test: res is truthy and res.get of user_id equals the
written id. -/
def matchesDoc (r : Option MDoc) (target : String) : Bool :=
  match r with
  | some d => d.userId == some target
  | none => false

/-- The polling loop of `eventual_consistency_experiment.py` step 2:
starting at attempt `i` with `rem` attempts left, read once per
iteration, stop with success at the first matching read, report failure
when the attempts are exhausted.  Returns the verdict and the number of
reads performed.  `reads` is the environment: what find_one returns on
each attempt. -/
def poll (reads : Nat → Option MDoc) (target : String) :
    Nat → Nat → Bool × Nat
  | _, 0 => (false, 0)
  | i, rem + 1 =>
      if matchesDoc (reads i) target then (true, 1)
      else ((poll reads target (i + 1) rem).1,
        (poll reads target (i + 1) rem).2 + 1)

/-- The for-else loop: range(10) starting at attempt 0. -/
def eventualPoll (reads : Nat → Option MDoc) (target : String) :
    Bool × Nat :=
  poll reads target 0 10

lemma poll_count_le (reads : Nat → Option MDoc) (target : String) :
    ∀ rem i, (poll reads target i rem).2 ≤ rem := by
  intro rem
  induction rem with
  | zero =>
      intro i
      simp [poll]
  | succ m ih =>
      intro i
      cases h : matchesDoc (reads i) target with
      | true => simp [poll, h]
      | false =>
          simp only [poll, h, Bool.false_eq_true, if_false]
          have := ih (i + 1)
          omega

lemma poll_true_iff (reads : Nat → Option MDoc) (target : String) :
    ∀ rem i, (poll reads target i rem).1 = true ↔
      ∃ d, d < rem ∧ matchesDoc (reads (i + d)) target = true := by
  intro rem
  induction rem with
  | zero =>
      intro i
      simp [poll]
  | succ m ih =>
      intro i
      cases h : matchesDoc (reads i) target with
      | true =>
          constructor
          · intro _
            exact ⟨0, Nat.succ_pos m, by simpa using h⟩
          · intro _
            simp [poll, h]
      | false =>
          simp only [poll, h, Bool.false_eq_true, if_false]
          rw [ih (i + 1)]
          constructor
          · rintro ⟨d, hd, hm⟩
            refine ⟨d + 1, by omega, ?_⟩
            rw [show i + (d + 1) = i + 1 + d by omega]
            exact hm
          · rintro ⟨d, hd, hm⟩
            cases d with
            | zero =>
                rw [Nat.add_zero] at hm
                rw [hm] at h
                cases h
            | succ d2 =>
                refine ⟨d2, by omega, ?_⟩
                rw [show i + 1 + d2 = i + (d2 + 1) by omega]
                exact hm

/-- Claim C10: the secondary catch-up polling loop always terminates
after at most 10 reads, and it declares the secondary caught up exactly
when one of its (at most 10) reads returns a document whose user_id
equals the id that was written; otherwise it reports replication lag. -/
theorem poll_loop_bounded_iff (reads : Nat → Option MDoc)
    (target : String) :
    (eventualPoll reads target).2 ≤ 10 ∧
      ((eventualPoll reads target).1 = true ↔
        ∃ d, d < 10 ∧ matchesDoc (reads d) target = true) := by
  constructor
  · exact poll_count_le reads target 10 0
  · have h := poll_true_iff reads target 10 0
    simpa using h

end Scripts
